import Mathlib

/-!
# Argus — shallow embedding and verification of the specification's claims

This development embeds the core data model and the operations of the Argus
intelligence-gathering platform (Rust) into Lean 4 and settles the frozen
claims about it.

Conventions of the embedding:
* Rust `f64` confidence values are modelled as `ℚ`; all comparisons performed
  by the code (`>`, `clamp`, `<`) are order-theoretic and agree with `f64`
  on the rationals appearing in the claims.
* `Uuid::new_v4()` fresh-id minting is modelled by a monotone `Nat` counter:
  the code relies only on freshly minted ids being distinct.
* `chrono::DateTime<Utc>` timestamps are modelled as opaque `Nat` values
  threaded as a `now` parameter (the code obtains them via `Utc::now()`).
* `serde_json::Value` is modelled by the inductive `Json` below.
* Rust `String` is modelled by Lean `String`; `to_lowercase`, `trim`,
  `to_uppercase` are modelled character-wise, which agrees with Rust on the
  ASCII strings appearing in all claims.
-/

set_option maxRecDepth 10000
set_option maxHeartbeats 1000000

namespace Argus

/-- Model of `serde_json::Value` (argus-core uses it for `properties` / `metadata`). -/
inductive Json where
  | null : Json
  | bool (b : Bool) : Json
  | num (q : ℚ) : Json
  | str (s : String) : Json
  | arr (elems : List Json) : Json
  | obj (fields : List (String × Json)) : Json

/-- Model of `serde_json::Value::is_null`. -/
def Json.is_null : Json → Bool
  | .null => true
  | _ => false

/-- Model of `serde_json::Value::Object(serde_json::Map::new())`. -/
def Json.emptyObj : Json := .obj []

/-- Model of `EntityType` from `argus-core/src/entity.rs` (closed tagged set). -/
inductive EntityType where
  | Person | Organization | Vessel | Aircraft | Location
  | Event | Document | Transaction | Sanction
  deriving DecidableEq, Repr

/-- Model of `RelationType` from `argus-core/src/entity.rs` (closed set of twelve verbs). -/
inductive RelationType where
  | OwnerOf | DirectorOf | EmployeeOf | RelatedTo | LocatedAt | TransactedWith
  | SanctionedBy | RegisteredIn | FlaggedAs | MeetingWith | TraveledTo | PartOf
  deriving DecidableEq, Repr

/-- Model of `Entity` from `argus-core/src/entity.rs`. -/
structure Entity where
  id : Nat
  entity_type : EntityType
  name : String
  aliases : List String
  properties : Json
  source : String
  source_id : Option String
  confidence : ℚ
  first_seen : Nat
  last_seen : Nat

/-- Model of `Relationship` from `argus-core/src/entity.rs`. -/
structure Relationship where
  id : Nat
  source_entity_id : Nat
  target_entity_id : Nat
  relation_type : RelationType
  properties : Json
  confidence : ℚ
  source : String
  timestamp : Option Nat

/-- Model of `ExtractionResult` from `argus-core/src/entity.rs`. -/
structure ExtractionResult where
  entities : List Entity
  relationships : List Relationship
  raw_source : String
  extracted_at : Nat

/-- Model of `RawDocument` from `argus-core/src/agent.rs`. -/
structure RawDocument where
  source : String
  source_id : String
  title : Option String
  content : String
  url : Option String
  collected_at : Nat
  metadata : Json

/-- Model of `AgentRunState` from `argus-core/src/api_types.rs`. -/
inductive AgentRunState where
  | Running | Completed | Failed
  deriving DecidableEq, Repr

/-- Model of `AgentRunStatus` from `argus-core/src/api_types.rs`. -/
structure AgentRunStatus where
  run_id : String
  agent_name : String
  status : AgentRunState
  started_at : Nat
  finished_at : Option Nat
  documents_collected : Nat
  entities_extracted : Nat
  error : Option String
  deriving DecidableEq, Repr

-- ───────────────────────── string helpers (Rust stdlib models) ─────────────
-- All implemented structurally over `String.data` so that concrete instances
-- evaluate inside the kernel.

/-- Rust `str::to_lowercase` (character-wise; agrees with Rust on ASCII). -/
def strLower (s : String) : String := ⟨s.data.map Char.toLower⟩

/-- Rust `str::to_uppercase` (character-wise; agrees with Rust on ASCII). -/
def strUpper (s : String) : String := ⟨s.data.map Char.toUpper⟩

/-- Rust `str::is_empty`. -/
def rsIsEmpty (s : String) : Bool := s.data.isEmpty

/-- Rust `str::trim` (Rust trims Unicode whitespace; `Char.isWhitespace`
agrees on the ASCII inputs of the claims). -/
def rsTrim (s : String) : String :=
  ⟨((s.data.dropWhile Char.isWhitespace).reverse.dropWhile
      Char.isWhitespace).reverse⟩

/-- Rust `str::starts_with`. -/
def rsStartsWith (s p : String) : Bool := p.data.isPrefixOf s.data

/-- Rust `str::strip_prefix`. -/
def stripPfx (p s : String) : Option String :=
  if p.data.isPrefixOf s.data then some ⟨s.data.drop p.data.length⟩ else none

/-- Rust `str::split` on a single separator char. -/
def splitOnCharGo (c : Char) : List Char → List Char → List (List Char)
  | [], acc => [acc.reverse]
  | x :: xs, acc =>
      if x = c then acc.reverse :: splitOnCharGo c xs []
      else splitOnCharGo c xs (x :: acc)

/-- Rust `str::split` on a single separator char. -/
def rsSplitOnChar (c : Char) (s : String) : List String :=
  (splitOnCharGo c s.data []).map (⟨·⟩)

/-- Rust `[&str]::join` / the `join` of accumulated lines. -/
def rsJoin (sep : String) (parts : List String) : String :=
  ⟨List.intercalate sep.data (parts.map String.data)⟩

/-- Rust `str::lines`: split on newline, not yielding a final empty line for
a trailing newline, and dropping one trailing carriage return per line. -/
def rustLines (s : String) : List String :=
  let parts := rsSplitOnChar '\n' s
  let parts := if parts.getLast? = some "" then parts.dropLast else parts
  parts.map fun line =>
    if line.data.getLast? = some '\r' then ⟨line.data.dropLast⟩ else line

/-- Digits of a decimal literal folded into a `Nat`. -/
def digitsToNat (cs : List Char) : Nat :=
  cs.foldl (fun acc c => 10 * acc + (c.toNat - 48)) 0

/-- Model of Rust `str::parse::<f64>()`, restricted to the plain decimal
literals (optional sign, integer part, optional fractional part) that the
claims exercise; other inputs are rejected.  The code only ever compares the
parsed value against `0.0` and `1.0`, where `ℚ` agrees with `f64`. -/
def parseDecimal (s : String) : Option ℚ :=
  let cs := s.toList
  let (neg, cs) := match cs with
    | '-' :: t => (true, t)
    | '+' :: t => (false, t)
    | t => (false, t)
  let intPart := cs.takeWhile Char.isDigit
  let rest := cs.drop intPart.length
  let build (ip fp : List Char) : Option ℚ :=
    if ip.isEmpty ∧ fp.isEmpty then none
    else
      let mag : ℚ :=
        mkRat (digitsToNat ip * 10 ^ fp.length + digitsToNat fp) (10 ^ fp.length)
      some (if neg then -mag else mag)
  match rest with
  | [] => build intPart []
  | '.' :: fracCs =>
      if fracCs.all Char.isDigit then build intPart fracCs else none
  | _ => none

/-- Rust `f64::clamp(0.0, 1.0)`. -/
def rustClamp01 (q : ℚ) : ℚ :=
  if q < 0 then 0 else if q > 1 then 1 else q

theorem rustClamp01_mem (q : ℚ) : 0 ≤ rustClamp01 q ∧ rustClamp01 q ≤ 1 := by
  unfold rustClamp01
  split_ifs with h1 h2 <;> constructor <;> linarith

-- ───────────────────── extraction pipeline (argus-extraction/src/pipeline.rs) ──

/-- Model of `LlmEntity`: intermediate JSON schema for LLM output parsing. -/
structure LlmEntity where
  name : String
  entity_type : String
  aliases : List String
  properties : Json
  confidence : ℚ

/-- Model of `LlmRelationship`: intermediate JSON schema for LLM output parsing. -/
structure LlmRelationship where
  source : String
  target : String
  relation_type : String
  properties : Json
  confidence : ℚ

/-- Model of `LlmExtractionOutput`: intermediate JSON schema for LLM output parsing. -/
structure LlmExtractionOutput where
  entities : List LlmEntity
  relationships : List LlmRelationship

/-- Model of `LlmExtractionPipeline::parse_entity_type`: fixed case-insensitive synonym
table; unknown types default to `Event`. -/
def parse_entity_type (s : String) : EntityType :=
  match strLower s with
  | "person" => .Person
  | "organization" | "org" | "company" => .Organization
  | "vessel" | "ship" | "boat" => .Vessel
  | "aircraft" | "plane" | "helicopter" => .Aircraft
  | "location" | "place" | "country" | "city" => .Location
  | "event" | "incident" => .Event
  | "document" | "report" | "filing" => .Document
  | "transaction" | "payment" | "transfer" => .Transaction
  | "sanction" | "sanctions" => .Sanction
  | _ => .Event

/-- Model of `LlmExtractionPipeline::parse_relation_type`: fixed case-insensitive
synonym table; unknown types default to `RelatedTo`. -/
def parse_relation_type (s : String) : RelationType :=
  match strLower s with
  | "owner_of" | "owns" => .OwnerOf
  | "director_of" | "directs" => .DirectorOf
  | "employee_of" | "works_for" | "employed_by" => .EmployeeOf
  | "related_to" | "associated_with" => .RelatedTo
  | "located_at" | "located_in" | "based_in" => .LocatedAt
  | "transacted_with" | "traded_with" | "paid" => .TransactedWith
  | "sanctioned_by" | "sanctioned" => .SanctionedBy
  | "registered_in" | "incorporated_in" => .RegisteredIn
  | "flagged_as" | "flagged" => .FlaggedAs
  | "meeting_with" | "met_with" => .MeetingWith
  | "traveled_to" | "visited" => .TraveledTo
  | "part_of" | "member_of" | "subsidiary_of" => .PartOf
  | _ => .RelatedTo

/-- Opening-brace character (`'\x7b'`). -/
def lbrace : Char := Char.ofNat 123

/-- Closing-brace character (`'\x7d'`). -/
def rbrace : Char := Char.ofNat 125

/-- Index of the first occurrence of `c` (Rust `str::find` on a char). -/
def firstIdxOf (cs : List Char) (c : Char) : Option Nat :=
  match cs with
  | [] => none
  | a :: t => if a = c then some 0 else (firstIdxOf t c).map (· + 1)

/-- Index of the last occurrence of `c` (Rust `str::rfind` on a char). -/
def lastIdxOf (cs : List Char) (c : Char) : Option Nat :=
  match firstIdxOf cs.reverse c with
  | some i => some (cs.length - 1 - i)
  | none => none

/-- The response-cleaning step of `parse_llm_response` (pipeline.rs:268-276):
trim, and when the trimmed text starts with a markdown code fence, slice from
the byte of the first opening brace (`find`, default 0) to one past the byte
of the last closing brace (`rfind`, default length).  Char positions model
Rust byte positions: the slice bounds always sit at char boundaries.  (When
the first opening brace lies beyond the last closing brace, the Rust slice
would panic; this model returns the empty slice — no claim exercises that.) -/
def cleanResponse (raw : String) : String :=
  if rsStartsWith (rsTrim raw) "```" then
    ⟨(((rsTrim raw).data.take (match lastIdxOf (rsTrim raw).data rbrace with
        | some i => i + 1
        | none => (rsTrim raw).data.length)).drop
      ((firstIdxOf (rsTrim raw).data lbrace).getD 0))⟩
  else rsTrim raw

/-- Insertion into the name-to-id index (`HashMap::insert`): a later insert
shadows an earlier one for the same key. -/
def idxInsert (m : List (String × Nat)) (k : String) (v : Nat) :
    List (String × Nat) :=
  (k, v) :: m

/-- Lookup in the name-to-id index (`HashMap::get`). -/
def idxLookup (m : List (String × Nat)) (k : String) : Option Nat :=
  (m.find? (fun p => p.1 == k)).map (·.2)

/-- The entity-building loop of `parse_llm_response` (pipeline.rs:289-318):
mint a fresh id per entity (modelled by the counter `nextId`), build the
`Entity`, and register the lowercased canonical name and every lowercased
alias in the name-to-id index. -/
def buildEntities (source : String) (now : Nat) :
    List LlmEntity → Nat → List (String × Nat) →
    List Entity × List (String × Nat)
  | [], _, idx => ([], idx)
  | le :: rest, nextId, idx =>
      let e : Entity :=
        { id := nextId
          entity_type := parse_entity_type le.entity_type
          name := le.name
          aliases := le.aliases
          properties := if le.properties.is_null then Json.emptyObj
                        else le.properties
          source := source
          source_id := none
          confidence := le.confidence
          first_seen := now
          last_seen := now }
      let idx1 := idxInsert idx (strLower le.name) nextId
      let idx2 := le.aliases.foldl (fun m a => idxInsert m (strLower a) nextId) idx1
      let (es, idxF) := buildEntities source now rest (nextId + 1) idx2
      (e :: es, idxF)

/-- The relationship-building loop of `parse_llm_response`
(pipeline.rs:321-355): resolve `source` and `target` through the
name-to-id index (lowercased); a relationship whose source or target
does not resolve is skipped. -/
def buildRelationships (source : String) (now : Nat)
    (idx : List (String × Nat)) :
    List LlmRelationship → Nat → List Relationship
  | [], _ => []
  | lr :: rest, nextId =>
      match idxLookup idx (strLower lr.source),
            idxLookup idx (strLower lr.target) with
      | some src, some tgt =>
          { id := nextId
            source_entity_id := src
            target_entity_id := tgt
            relation_type := parse_relation_type lr.relation_type
            properties := if lr.properties.is_null then Json.emptyObj
                          else lr.properties
            confidence := lr.confidence
            source := source
            timestamp := some now } :: buildRelationships source now idx rest (nextId + 1)
      | _, _ => buildRelationships source now idx rest nextId

/-- The deterministic part of `parse_llm_response` after JSON decoding. -/
def buildFromOutput (out : LlmExtractionOutput) (source : String) (now : Nat) :
    List Entity × List Relationship :=
  let (entities, idx) := buildEntities source now out.entities 0 []
  (entities, buildRelationships source now idx out.relationships entities.length)

/-- Model of `LlmExtractionPipeline::parse_llm_response` (pipeline.rs:264-364).
`decode` abstracts `serde_json::from_str::<LlmExtractionOutput>`, which is an
external library: it is strict JSON parsing of the cleaned text. -/
def parse_llm_response (decode : String → Except String LlmExtractionOutput)
    (raw_json source : String) (now : Nat) :
    Except String (List Entity × List Relationship) :=
  match decode (cleanResponse raw_json) with
  | .error e => .error ("Failed to parse LLM JSON output: " ++ e)
  | .ok out => .ok (buildFromOutput out source now)

-- ─────────────── extract_batch result aggregation (pipeline.rs:395-462) ────

/-- Outcome of one spawned per-document extraction task, as observed by
`JoinSet::join_next`: the task returned `Ok`, returned `Err`, or panicked
(a join error). -/
inductive TaskOutcome where
  | ok (r : ExtractionResult)
  | err (msg : String)
  | panicked (msg : String)

/-- One step of the `join_next` collection loop: successes are pushed onto
`extraction_results`, failures and join errors onto `errors`. -/
def collectOutcome (acc : List ExtractionResult × List String)
    (o : TaskOutcome) : List ExtractionResult × List String :=
  match o with
  | .ok r => (acc.1 ++ [r], acc.2)
  | .err m => (acc.1, acc.2 ++ [m])
  | .panicked m => (acc.1, acc.2 ++ ["Task join error: " ++ m])

/-- Model of `LlmExtractionPipeline::extract_batch`, modelled over the list of task
outcomes in arrival order (the per-document HTTP calls themselves are
external): if every task failed and at least one error was recorded, a single
aggregated error is returned; otherwise the successes are returned. -/
def extract_batch (outcomes : List TaskOutcome) :
    Except String (List ExtractionResult) :=
  let (extraction_results, errors) := outcomes.foldl collectOutcome ([], [])
  if extraction_results.isEmpty ∧ ¬errors.isEmpty then
    .error ("All documents failed extraction: " ++ rsJoin "; " errors)
  else
    .ok extraction_results

-- ───────────── reasoning interpretation parser (argus-reasoning/src/engine.rs) ──

/-- The per-line state of `LlmReasoningEngine::parse_interpretation`:
`current_section`, accumulated `answer_lines`, `confidence`, `entities`,
`sources`. -/
structure InterpState where
  current_section : Option String
  answer_lines : List String
  confidence : ℚ
  entities : List String
  sources : List String

/-- One iteration of the line loop of `parse_interpretation`
(engine.rs:328-357). -/
def interpStep (st : InterpState) (line : String) : InterpState :=
  let trimmed := rsTrim line
  match stripPfx "ANSWER:" trimmed with
  | some rest =>
      let v := rsTrim rest
      { st with current_section := some "answer"
                answer_lines := if rsIsEmpty v then st.answer_lines
    else st.answer_lines ++ [v] }
  | none =>
  match stripPfx "CONFIDENCE:" trimmed with
  | some rest =>
      { st with current_section := some "confidence"
                confidence := match parseDecimal (rsTrim rest) with
    | some c => rustClamp01 c
    | none => st.confidence }
  | none =>
  match stripPfx "ENTITIES:" trimmed with
  | some rest =>
      let v := rsTrim rest
      { st with current_section := some "entities"
                entities := if ¬rsIsEmpty v ∧ strUpper v ≠ "NONE" then
      ((rsSplitOnChar ',' v).map rsTrim).filter (fun x => ¬rsIsEmpty x)
    else st.entities }
  | none =>
  match stripPfx "SOURCES:" trimmed with
  | some rest =>
      let v := rsTrim rest
      { st with current_section := some "sources"
                sources := if ¬rsIsEmpty v ∧ strUpper v ≠ "NONE" then
      ((rsSplitOnChar ',' v).map rsTrim).filter (fun x => ¬rsIsEmpty x)
    else st.sources }
  | none =>
      if st.current_section = some "answer" then
        { st with answer_lines := st.answer_lines ++ [trimmed] }
      else st

/-- Model of `LlmReasoningEngine::parse_interpretation` (engine.rs:318-367). -/
def parse_interpretation (response : String) :
    String × ℚ × List String × List String :=
  let st0 : InterpState :=
    { current_section := none, answer_lines := [], confidence := mkRat 1 2
      entities := [], sources := [] }
  let st := (rustLines response).foldl interpStep st0
  let answer := rsTrim (rsJoin "\n" st.answer_lines)
  let answer := if rsIsEmpty answer then rsTrim response else answer
  (answer, st.confidence, st.entities, st.sources)

-- ───────────── sanctions pagination (argus-agents/src/opensanctions.rs) ────

/-- Model of `PAGE_LIMIT` in opensanctions.rs. -/
def PAGE_LIMIT : Nat := 100

/-- One page of the OpenSanctions entities endpoint, as consumed by
`collect`: the parsed `results` array (entities modelled abstractly) and the
optional reported `total`. -/
structure SanctionsPage (α : Type) where
  results : List α
  total : Option Nat

/-- The pagination loop of `OpenSanctionsAgent::collect`
(opensanctions.rs:198-248), over an abstract upstream `pages : offset ↦ page`.
Documents of every fetched page are appended; the loop stops when a page
returns fewer results than `PAGE_LIMIT`, when the reported total is reached
(`offset + result_count ≥ total`), or when, after `offset += PAGE_LIMIT`, the
safety check `offset > 10_000` triggers.  `fuel` bounds the recursion for
well-foundedness; `sanctions_collect` supplies fuel 101, and
`collectGo_isSome` proves that fuel is never exhausted. -/
def collectGo (pages : Nat → SanctionsPage α) : Nat → Nat → Option (List α)
  | 0, _ => none
  | fuel + 1, offset =>
      if (pages offset).results.length < PAGE_LIMIT then
        some (pages offset).results
      else if (match (pages offset).total with
               | some total => decide (offset + (pages offset).results.length ≥ total)
               | none => false) = true then
        some (pages offset).results
      else if offset + PAGE_LIMIT > 10000 then
        some (pages offset).results
      else
        (collectGo pages fuel (offset + PAGE_LIMIT)).map ((pages offset).results ++ ·)

/-- Model of `OpenSanctionsAgent::collect` (pagination part). -/
def sanctions_collect (pages : Nat → SanctionsPage α) : Option (List α) :=
  collectGo pages 101 0

-- ───────────── news-events parser (argus-agents/src/gdelt.rs) ──────────────

/-- Model of `MAX_EVENTS` in gdelt.rs. -/
def MAX_EVENTS : Nat := 5000

/-- Model of `GDELT_EVENT_COLUMNS` in gdelt.rs. -/
def GDELT_EVENT_COLUMNS : Nat := 58

/-- Model of `cameo_event_description` (gdelt.rs:949-973). -/
def cameo_event_description (code : String) : String :=
  match code with
  | "01" => "Make Public Statement"
  | "02" => "Appeal"
  | "03" => "Express Intent to Cooperate"
  | "04" => "Consult"
  | "05" => "Engage in Diplomatic Cooperation"
  | "06" => "Engage in Material Cooperation"
  | "07" => "Provide Aid"
  | "08" => "Yield"
  | "09" => "Investigate"
  | "10" => "Demand"
  | "11" => "Disapprove"
  | "12" => "Reject"
  | "13" => "Threaten"
  | "14" => "Protest"
  | "15" => "Exhibit Military Posture"
  | "16" => "Reduce Relations"
  | "17" => "Coerce"
  | "18" => "Assault"
  | "19" => "Fight"
  | "20" => "Engage in Unconventional Mass Violence"
  | _ => "Interact With"

/-- Model of `build_event_title` (gdelt.rs:859-881). -/
def build_event_title (actor1 actor2 event_code geo : String) : String :=
  let parts : List String := [if rsIsEmpty actor1 then "Unknown" else actor1]
  let parts := parts ++ [cameo_event_description event_code]
  let parts := if ¬rsIsEmpty actor2 then parts ++ [actor2] else parts
  let parts := if ¬rsIsEmpty geo then parts ++ ["in " ++ geo] else parts
  rsJoin " " parts

/-- Model of `build_event_content` (gdelt.rs:884-946). -/
def build_event_content (id day actor1 actor1_cc actor2 actor2_cc event_code
    event_root_code quad_class goldstein avg_tone geo geo_cc source_url :
    String) : String :=
  let quad_label := match quad_class with
    | "1" => "Verbal Cooperation"
    | "2" => "Material Cooperation"
    | "3" => "Verbal Conflict"
    | "4" => "Material Conflict"
    | _ => quad_class
  let lines : List String :=
    ["GDELT Event " ++ id ++ " on " ++ day,
     "Actor 1: " ++ (if rsIsEmpty actor1 then "N/A" else actor1) ++ " (" ++
       (if rsIsEmpty actor1_cc then "N/A" else actor1_cc) ++ ")",
     "Actor 2: " ++ (if rsIsEmpty actor2 then "N/A" else actor2) ++ " (" ++
       (if rsIsEmpty actor2_cc then "N/A" else actor2_cc) ++ ")",
     "Event: " ++ cameo_event_description event_code ++ " (root: " ++
       cameo_event_description event_root_code ++ ")",
     "Quad Class: " ++ quad_label,
     "Goldstein Scale: " ++ goldstein,
     "Average Tone: " ++ avg_tone]
  let lines := if ¬rsIsEmpty geo then
      lines ++ ["Location: " ++ geo ++ " (" ++ geo_cc ++ ")"] else lines
  let lines := if ¬rsIsEmpty source_url then
      lines ++ ["Source: " ++ source_url] else lines
  rsJoin "\n" lines

/-- Model of `parse_f64` (gdelt.rs:975-981), via the decimal-literal model. -/
def parse_f64 (s : String) : Option ℚ :=
  if rsIsEmpty s then none else parseDecimal s

/-- Field access `fields[i]` for `i < 58`, guarded in the source by the
column-count check. -/
def fld (fields : List String) (i : Nat) : String := rsTrim (fields.getD i "")

/-- Model of `Option ℚ` rendered into the JSON metadata (`json!` serializes `None` as
null). -/
def Json.ofOptQ : Option ℚ → Json
  | some q => .num q
  | none => .null

/-- The per-line body of `GdeltAgent::parse_events` (gdelt.rs:175-275): `none`
when the row is skipped (fewer than 58 tab-separated columns, or empty
primary key), otherwise the built `RawDocument`. -/
def parseEventLine (now : Nat) (line : String) : Option RawDocument :=
  let fields := rsSplitOnChar '\t' line
  if fields.length < GDELT_EVENT_COLUMNS then none
  else
    let global_event_id := fld fields 0
    if rsIsEmpty global_event_id then none
    else
      let actor1 := fld fields 5
      let actor2 := fld fields 15
      let event_code := fld fields 26
      let event_root_code := fld fields 28
      let event_base_code := fld fields 27
      let quad_class := fld fields 29
      let goldstein := fld fields 30
      let avg_tone := fld fields 34
      let num_mentions := fld fields 31
      let num_sources := fld fields 32
      let num_articles := fld fields 33
      let day := fld fields 1
      let source_url := fld fields 57
      let action_geo := fld fields 50
      let action_country := fld fields 51
      let title := build_event_title actor1 actor2 event_code action_geo
      let content := build_event_content global_event_id day actor1
        (fld fields 7) actor2 (fld fields 17) event_code event_root_code
        quad_class goldstein avg_tone action_geo action_country source_url
      let metadata : Json := .obj
        [("global_event_id", .str global_event_id),
         ("day", .str day),
         ("actor1_name", .str actor1),
         ("actor1_country_code", .str (fld fields 7)),
         ("actor2_name", .str actor2),
         ("actor2_country_code", .str (fld fields 17)),
         ("event_code", .str event_code),
         ("event_base_code", .str event_base_code),
         ("event_root_code", .str event_root_code),
         ("quad_class", .str quad_class),
         ("goldstein_scale", .str goldstein),
         ("avg_tone", .str avg_tone),
         ("num_mentions", .str num_mentions),
         ("num_sources", .str num_sources),
         ("num_articles", .str num_articles),
         ("action_geo_full_name", .str action_geo),
         ("action_geo_country_code", .str action_country),
         ("action_geo_lat", Json.ofOptQ (parse_f64 (fld fields 53))),
         ("action_geo_long", Json.ofOptQ (parse_f64 (fld fields 54))),
         ("actor1_geo_lat", Json.ofOptQ (parse_f64 (fld fields 39))),
         ("actor1_geo_long", Json.ofOptQ (parse_f64 (fld fields 40))),
         ("actor2_geo_lat", Json.ofOptQ (parse_f64 (fld fields 44))),
         ("actor2_geo_long", Json.ofOptQ (parse_f64 (fld fields 45)))]
      some
        { source := "gdelt"
          source_id := "gdelt-event-" ++ global_event_id
          title := if rsIsEmpty title then none else some title
          content := content
          url := if rsIsEmpty source_url then none else some source_url
          collected_at := now
          metadata := metadata }

/-- The accumulation loop of `parse_events` over the (already truncated)
line list: skipped rows contribute nothing. -/
def parseEventsGo (now : Nat) : List String → List RawDocument
  | [] => []
  | line :: rest =>
      match parseEventLine now line with
      | some doc => doc :: parseEventsGo now rest
      | none => parseEventsGo now rest

/-- Model of `GdeltAgent::parse_events` (gdelt.rs:171-278): iterate over
`csv.lines().take(MAX_EVENTS)`, skipping malformed rows. -/
def parse_events (now : Nat) (csv : String) : List RawDocument :=
  parseEventsGo now ((rustLines csv).take MAX_EVENTS)

-- ───────────── run registry (scheduler.rs / handlers/agents.rs) ────────────

/-- The run-registry insertion performed by `agent_loop`
(scheduler.rs:137-145): push, then drop the oldest entries when the length
exceeds 100. -/
def schedulerInsertRun (runs : List AgentRunStatus) (r : AgentRunStatus) :
    List AgentRunStatus :=
  let runs := runs ++ [r]
  if runs.length > 100 then
    runs.drop (runs.length - 100)
  else runs

/-- The run-registry insertion performed by `trigger_agent`
(handlers/agents.rs:70-74): a plain push, with no length cap. -/
def triggerInsertRun (runs : List AgentRunStatus) (r : AgentRunStatus) :
    List AgentRunStatus :=
  runs ++ [r]

/-- Reachability of a run-registry state from the empty registry under any
interleaving of the scheduler's and the trigger handler's insertions
(`update_run` mutates fields in place and never changes the length). -/
inductive ReachableRegistry : List AgentRunStatus → Prop where
  | empty : ReachableRegistry []
  | sched (runs : List AgentRunStatus) (r : AgentRunStatus) :
      ReachableRegistry runs → ReachableRegistry (schedulerInsertRun runs r)
  | trig (runs : List AgentRunStatus) (r : AgentRunStatus) :
      ReachableRegistry runs → ReachableRegistry (triggerInsertRun runs r)

-- ───────────── graph store (argus-graph/src/store.rs) ──────────────────────

/-- A stored entity node.  Neo4j stores `aliases` and `properties` as
JSON-encoded strings and timestamps as RFC 3339 strings; since those
encodings are injective they are modelled by the decoded values.  `sources`
is nullable on nodes created before the merge code ran, hence `Option`.
`source_id` is stored as a plain string (the store passes
`entity.source_id.clone().unwrap_or_default()` as the parameter). -/
structure GraphNode where
  label : EntityType
  id : Nat
  name : String
  aliases : List String
  properties : Json
  source : String
  source_id : String
  confidence : ℚ
  first_seen : Nat
  last_seen : Nat
  sources : Option (List String)

/-- A stored relationship edge.  The stored `timestamp` is an RFC 3339 string
or `''` (for `None`); the empty-string test in the Cypher is modelled by
`Option`. -/
structure GraphEdge where
  rel_label : RelationType
  id : Nat
  src : Nat
  tgt : Nat
  source : String
  properties : Json
  confidence : ℚ
  timestamp : Option Nat

/-- The graph database state. -/
structure GraphState where
  nodes : List GraphNode
  edges : List GraphEdge

/-- The `OPTIONAL MATCH` predicate of the entity upsert (store.rs:193-195 /
225-227): same label, case-insensitively equal `name`, different `source`. -/
def crossSourceMatch (e : Entity) (n : GraphNode) : Bool :=
  n.label = parseLabel e ∧ strLower n.name = strLower e.name ∧
    n.source ≠ e.source
where
  /-- Model of `entity_type_to_label`/`label_to_entity_type` are a bijection on the
  closed tag set, so labels are modelled by `EntityType` itself. -/
  parseLabel (e : Entity) : EntityType := e.entity_type

/-- Model of `SET existing....` of the cross-source merge branch (store.rs:197-206):
extend `sources`, overwrite `aliases`/`properties`/`last_seen`, and raise
`confidence` only when the incoming confidence is strictly greater. -/
def mergeOntoExisting (e : Entity) (n : GraphNode) : GraphNode :=
  { n with
    sources := some (match n.sources with
      | none => [e.source]
      | some ss => if e.source ∈ ss then ss else ss ++ [e.source])
    aliases := e.aliases
    properties := e.properties
    confidence := if e.confidence > n.confidence then e.confidence
                  else n.confidence
    last_seen := e.last_seen }

/-- The `MERGE` match predicate when `source_id` is present
(store.rs:209): same label, same `source`, same `source_id`. -/
def mergeKeyMatch (e : Entity) (sid : String) (n : GraphNode) : Bool :=
  n.label = e.entity_type ∧ n.source = e.source ∧ n.source_id = sid

/-- The `MERGE` match predicate when `source_id` is absent
(store.rs:241): same label, same `id`. -/
def mergeIdMatch (e : Entity) (n : GraphNode) : Bool :=
  n.label = e.entity_type ∧ n.id = e.id

/-- Model of `ON MATCH SET` of the merge branch (store.rs:214-221 / 247-254):
overwrite `name`, `aliases`, `properties`, `confidence`, `last_seen` and
extend `sources`. -/
def onMatchSet (e : Entity) (n : GraphNode) : GraphNode :=
  { n with
    name := e.name
    aliases := e.aliases
    properties := e.properties
    confidence := e.confidence
    last_seen := e.last_seen
    sources := some (match n.sources with
      | none => [e.source]
      | some ss => if e.source ∈ ss then ss else ss ++ [e.source]) }

/-- Model of `ON CREATE SET` of the merge branch (store.rs:210-213 / 242-246). -/
def onCreateNode (e : Entity) (sid : String) : GraphNode :=
  { label := e.entity_type
    id := e.id
    name := e.name
    aliases := e.aliases
    properties := e.properties
    source := e.source
    source_id := sid
    confidence := e.confidence
    first_seen := e.first_seen
    last_seen := e.last_seen
    sources := some [e.source] }

/-- The per-entity upsert of `store_extraction` (store.rs:180-282): when some
node cross-source-matches, every matching node is merged onto; otherwise
`MERGE` on `(source, source_id)` (when `source_id` is present) or on `id`,
updating every matching node or creating one. -/
def upsertEntity (nodes : List GraphNode) (e : Entity) : List GraphNode :=
  if nodes.any (crossSourceMatch e) then
    nodes.map fun n => if crossSourceMatch e n then mergeOntoExisting e n else n
  else
    match e.source_id with
    | some sid =>
        if nodes.any (mergeKeyMatch e sid) then
          nodes.map fun n => if mergeKeyMatch e sid n then onMatchSet e n else n
        else nodes ++ [onCreateNode e sid]
    | none =>
        if nodes.any (mergeIdMatch e) then
          nodes.map fun n => if mergeIdMatch e n then onMatchSet e n else n
        else nodes ++ [onCreateNode e ""]

/-- The edge `MERGE` key (store.rs:296-298): both endpoints matched by `id`
(any label), merged on `(source_entity_id, target_entity_id, relation type,
source)`. -/
def edgeKeyMatch (r : Relationship) (ed : GraphEdge) : Bool :=
  ed.src = r.source_entity_id ∧ ed.tgt = r.target_entity_id ∧
    ed.rel_label = r.relation_type ∧ ed.source = r.source

/-- The per-relationship upsert of `store_extraction` (store.rs:284-327):
when both endpoint nodes exist, merge the edge — on match, overwrite
`properties`, raise `confidence` only when strictly greater, and overwrite
`timestamp` only when the incoming one is non-empty; on create, write all
fields.  When either endpoint is missing the `MATCH` yields no row and the
statement is a no-op. -/
def upsertRelationship (g : GraphState) (r : Relationship) : GraphState :=
  if g.nodes.any (fun n => n.id = r.source_entity_id) ∧
     g.nodes.any (fun n => n.id = r.target_entity_id) then
    if g.edges.any (edgeKeyMatch r) then
      { g with edges := g.edges.map fun ed =>
          if edgeKeyMatch r ed then
            { ed with
              properties := r.properties
              confidence := if r.confidence > ed.confidence then r.confidence
                            else ed.confidence
              timestamp := match r.timestamp with
                | some t => some t
                | none => ed.timestamp }
          else ed }
    else
      { g with edges := g.edges ++
          [{ rel_label := r.relation_type, id := r.id,
             src := r.source_entity_id, tgt := r.target_entity_id,
             source := r.source, properties := r.properties,
             confidence := r.confidence, timestamp := r.timestamp }] }
  else g

/-- Model of `Neo4jGraphStore::store_extraction` (store.rs:175-340): upsert every
entity, then every relationship, in one transaction. -/
def store_extraction (g : GraphState) (result : ExtractionResult) :
    GraphState :=
  let g := { g with nodes := result.entities.foldl upsertEntity g.nodes }
  result.relationships.foldl upsertRelationship g

-- ═══════════════════════════ theorems ══════════════════════════════════════

-- ── C8 helpers ──

theorem interpStep_conf (st : InterpState) (line : String)
    (h : 0 ≤ st.confidence ∧ st.confidence ≤ 1) :
    0 ≤ (interpStep st line).confidence ∧ (interpStep st line).confidence ≤ 1 := by
  unfold interpStep
  cases hA : stripPfx "ANSWER:" (rsTrim line) with
  | some rest => simpa [hA] using h
  | none =>
  cases hC : stripPfx "CONFIDENCE:" (rsTrim line) with
  | some rest =>
      cases hP : parseDecimal (rsTrim rest) with
      | some c => simpa [hA, hC, hP] using rustClamp01_mem c
      | none => simpa [hA, hC, hP] using h
  | none =>
  cases hE : stripPfx "ENTITIES:" (rsTrim line) with
  | some rest => simpa [hA, hC, hE] using h
  | none =>
  cases hS : stripPfx "SOURCES:" (rsTrim line) with
  | some rest => simpa [hA, hC, hE, hS] using h
  | none =>
      by_cases hcur : st.current_section = some "answer" <;>
        simpa [hA, hC, hE, hS, hcur] using h

theorem interpFold_conf (lines : List String) (st : InterpState)
    (h : 0 ≤ st.confidence ∧ st.confidence ≤ 1) :
    0 ≤ (lines.foldl interpStep st).confidence ∧
      (lines.foldl interpStep st).confidence ≤ 1 := by
  induction lines generalizing st with
  | nil => simpa using h
  | cons line rest ih => exact ih _ (interpStep_conf st line h)

/-- C8. The interpretation parser recognizes each marker prefix at start of
line, accumulates ANSWER continuation lines until the next marker, clamps
CONFIDENCE into [0,1] (and the returned confidence always lies in [0,1]),
and treats the literal token NONE (case-insensitively) as an empty list; in
particular the input
`"ANSWER: Line 1\nLine 2\nCONFIDENCE: 1.7\nENTITIES: X, Y\nSOURCES: NONE"`
yields answer `"Line 1\nLine 2"`, confidence 1.0, entities `["X","Y"]` and
sources `[]`. -/
theorem C8_parse_interpretation :
    parse_interpretation
        "ANSWER: Line 1\nLine 2\nCONFIDENCE: 1.7\nENTITIES: X, Y\nSOURCES: NONE"
      = ("Line 1\nLine 2", 1, ["X", "Y"], []) ∧
    ∀ response : String,
      0 ≤ (parse_interpretation response).2.1 ∧
        (parse_interpretation response).2.1 ≤ 1 := by
  constructor
  · decide
  · intro response
    have h := interpFold_conf (rustLines response)
      { current_section := none, answer_lines := [], confidence := mkRat 1 2
        entities := [], sources := [] } (by constructor <;> decide)
    simpa [parse_interpretation] using h

-- ── C9 helpers ──

theorem parseEventsGo_length (now : Nat) (lines : List String) :
    (parseEventsGo now lines).length ≤ lines.length := by
  induction lines with
  | nil => simp [parseEventsGo]
  | cons line rest ih =>
      unfold parseEventsGo
      cases parseEventLine now line with
      | some doc => simpa using ih
      | none => exact le_trans ih (by simp)

theorem rsIsEmpty_iff (s : String) : rsIsEmpty s = true ↔ s = "" := by
  cases s with
  | mk data =>
      simp [rsIsEmpty, List.isEmpty_iff, String.ext_iff]

theorem parseEventLine_source_id (now : Nat) (line : String) (d : RawDocument)
    (h : parseEventLine now line = some d) :
    ∃ gid, gid ≠ "" ∧ d.source_id = "gdelt-event-" ++ gid := by
  unfold parseEventLine at h
  by_cases hcols : (rsSplitOnChar '\t' line).length < GDELT_EVENT_COLUMNS
  · simp [hcols] at h
  · by_cases hkey : rsIsEmpty (fld (rsSplitOnChar '\t' line) 0) = true
    · simp [hcols, hkey] at h
    · refine ⟨fld (rsSplitOnChar '\t' line) 0, ?_, ?_⟩
      · intro hc
        exact hkey ((rsIsEmpty_iff _).mpr hc)
      · simp [hcols, hkey] at h
        exact (congrArg RawDocument.source_id h).symm

theorem parseEventsGo_source_id (now : Nat) (lines : List String)
    (d : RawDocument) (h : d ∈ parseEventsGo now lines) :
    ∃ gid, gid ≠ "" ∧ d.source_id = "gdelt-event-" ++ gid := by
  induction lines with
  | nil => simp [parseEventsGo] at h
  | cons line rest ih =>
      unfold parseEventsGo at h
      cases hline : parseEventLine now line with
      | some doc =>
          rw [hline] at h
          rcases List.mem_cons.mp h with h | h
          · exact h ▸ parseEventLine_source_id now line doc hline
          · exact ih h
      | none => rw [hline] at h; exact ih h

theorem append_ne_empty_of_left (s t : String) (h : s.length ≠ 0) :
    s ++ t ≠ "" := by
  intro hc
  have := congrArg String.length hc
  rw [String.length_append] at this
  simp at this
  omega

/-- C9. The news-events parser skips every row with fewer than 58 tab-separated
columns and every row whose primary key (global event id) is empty, truncates
processing after 5,000 rows — hence returns at most 5,000 documents — and every
returned document has a non-empty `source_id` derived from its global event
id. -/
theorem C9_parse_events :
    (∀ now csv, (parse_events now csv).length ≤ 5000) ∧
    (∀ now csv d, d ∈ parse_events now csv →
        ∃ gid, gid ≠ "" ∧ d.source_id = "gdelt-event-" ++ gid ∧
          d.source_id ≠ "") ∧
    (∀ now line rest, (rsSplitOnChar '\t' line).length < 58 →
        parseEventsGo now (line :: rest) = parseEventsGo now rest) ∧
    (∀ now line rest, ¬(rsSplitOnChar '\t' line).length < 58 →
        fld (rsSplitOnChar '\t' line) 0 = "" →
        parseEventsGo now (line :: rest) = parseEventsGo now rest) := by
  refine ⟨?_, ?_, ?_, ?_⟩
  · intro now csv
    calc (parse_events now csv).length
        ≤ ((rustLines csv).take MAX_EVENTS).length := parseEventsGo_length _ _
      _ ≤ 5000 := by
          have h5 := List.length_take_le MAX_EVENTS (rustLines csv)
          exact le_trans h5 (by simp [MAX_EVENTS])
  · intro now csv d hd
    obtain ⟨gid, hgid, hsid⟩ := parseEventsGo_source_id now _ d hd
    refine ⟨gid, hgid, hsid, ?_⟩
    rw [hsid]
    apply append_ne_empty_of_left
    decide
  · intro now line rest hcols
    have hnone : parseEventLine now line = none := by
      unfold parseEventLine
      simp [GDELT_EVENT_COLUMNS, hcols]
    simp [parseEventsGo, hnone]
  · intro now line rest hcols hkey
    have hnone : parseEventLine now line = none := by
      unfold parseEventLine
      have : rsIsEmpty (fld (rsSplitOnChar '\t' line) 0) = true :=
        (rsIsEmpty_iff _).mpr hkey
      simp [this]
    simp [parseEventsGo, hnone]

/-- Witness for C9: a one-row valid input, a short row, and a row with an
empty primary key. -/
theorem C9_parse_events_witness :
    (parse_events 0 "").length ≤ 5000 ∧
    (∃ d, d ∈ parse_events 0 (String.intercalate "\t" (List.replicate 58 "1")) ∧
        ∃ gid, gid ≠ "" ∧ d.source_id = "gdelt-event-" ++ gid ∧
          d.source_id ≠ "") ∧
    parseEventsGo 0 ["a\tb"] = parseEventsGo 0 [] ∧
    parseEventsGo 0 [String.intercalate "\t" (List.replicate 58 "")] =
      parseEventsGo 0 [] := by
  refine ⟨C9_parse_events.1 0 "", ?_, C9_parse_events.2.2.1 0 "a\tb" [] (by decide),
    C9_parse_events.2.2.2 0 _ [] (by decide) (by decide)⟩
  obtain ⟨d, hd⟩ :
      ∃ d, parse_events 0 (String.intercalate "\t" (List.replicate 58 "1")) = [d] :=
    ⟨_, rfl⟩
  refine ⟨d, by rw [hd]; exact List.mem_singleton.mpr rfl, ?_⟩
  exact C9_parse_events.2.1 0 _ d (by rw [hd]; exact List.mem_singleton.mpr rfl)

-- ── C7 helpers ──

/-- Whether a task outcome is a success. -/
def isOkOutcome : TaskOutcome → Bool
  | .ok _ => true
  | _ => false

/-- The success payload of a task outcome. -/
def okPart : TaskOutcome → Option ExtractionResult
  | .ok r => some r
  | _ => none

/-- The error message a task outcome contributes. -/
def errPart : TaskOutcome → Option String
  | .ok _ => none
  | .err m => some m
  | .panicked m => some ("Task join error: " ++ m)

theorem foldl_collectOutcome (outs : List TaskOutcome)
    (acc : List ExtractionResult × List String) :
    outs.foldl collectOutcome acc =
      (acc.1 ++ outs.filterMap okPart, acc.2 ++ outs.filterMap errPart) := by
  induction outs generalizing acc with
  | nil => simp
  | cons o rest ih =>
      cases o <;> simp [collectOutcome, ih, okPart, errPart]

/-- C7. If every per-document extraction task in a (non-empty) batch fails,
`extract_batch` returns a single aggregated error; if at least one task
succeeds, it returns `Ok` with exactly the successful results; and every
non-success — a failed task or a panicked task alike — contributes exactly one
recorded per-document error (a panic never propagates). -/
theorem C7_extract_batch (outcomes : List TaskOutcome) :
    (outcomes ≠ [] → (∀ o ∈ outcomes, ∀ r, o ≠ .ok r) →
        ∃ msg, extract_batch outcomes = .error msg) ∧
    ((∃ o ∈ outcomes, ∃ r, o = .ok r) →
        extract_batch outcomes = .ok (outcomes.filterMap okPart)) ∧
    (outcomes.foldl collectOutcome ([], [])).2.length =
      (outcomes.filter (fun o => ¬isOkOutcome o)).length := by
  refine ⟨?_, ?_, ?_⟩
  · intro hne hfail
    have hnone : outcomes.filterMap okPart = [] := by
      rw [List.filterMap_eq_nil_iff]
      intro o ho
      cases o with
      | ok r => exact absurd rfl (hfail _ ho r)
      | err m => rfl
      | panicked m => rfl
    have hsome : outcomes.filterMap errPart ≠ [] := by
      cases outcomes with
      | nil => exact absurd rfl hne
      | cons o rest =>
          cases o with
          | ok r => exact absurd rfl (hfail _ (List.mem_cons_self _ _) r)
          | err m => simp [errPart]
          | panicked m => simp [errPart]
    refine ⟨"All documents failed extraction: " ++
      rsJoin "; " (outcomes.filterMap errPart), ?_⟩
    unfold extract_batch
    rw [foldl_collectOutcome]
    simp [hnone, hsome]
  · intro ⟨o, ho, r, hor⟩
    have : outcomes.filterMap okPart ≠ [] := by
      intro hc
      rw [List.filterMap_eq_nil_iff] at hc
      have := hc o ho
      rw [hor] at this
      simp [okPart] at this
    unfold extract_batch
    rw [foldl_collectOutcome]
    simp [this]
  · rw [foldl_collectOutcome]
    simp only [List.nil_append]
    induction outcomes with
    | nil => rfl
    | cons o rest ih => cases o <;> simp [errPart, isOkOutcome, ih]

/-- Witness for C7: a batch where every task fails (one error, one panic)
yields an aggregated error; a batch with one success and one failure yields
exactly the successful result. -/
theorem C7_extract_batch_witness :
    (∃ msg, extract_batch [.err "boom", .panicked "cancelled"] = .error msg) ∧
    extract_batch
        [.ok { entities := [], relationships := [], raw_source := "d0",
               extracted_at := 0 },
         .err "boom"]
      = .ok [{ entities := [], relationships := [], raw_source := "d0",
               extracted_at := 0 }] := by
  constructor
  · exact (C7_extract_batch [.err "boom", .panicked "cancelled"]).1
      (by simp) (by intro o ho r; simp at ho; rcases ho with rfl | rfl <;> simp)
  · exact (C7_extract_batch _).2.1
      ⟨_, List.mem_cons_self _ _, _, rfl⟩

-- ── C2 ──

/-- A concrete run record, as minted at the start of a run. -/
def c2run : AgentRunStatus :=
  { run_id := "run-1", agent_name := "gdelt", status := .Running,
    started_at := 0, finished_at := none, documents_collected := 0,
    entities_extracted := 0, error := none }

/-- Model of `n` consecutive trigger-handler insertions from the empty registry. -/
def triggerTower : Nat → List AgentRunStatus
  | 0 => []
  | n + 1 => triggerInsertRun (triggerTower n) c2run

theorem triggerTower_reachable (n : Nat) :
    ReachableRegistry (triggerTower n) := by
  induction n with
  | zero => exact .empty
  | succ n ih => exact .trig _ _ ih

/-- C2 (code bug). The registry state reached by 101 consecutive
`POST /api/agents/trigger` insertions — a legal interleaving with no scheduler
insertion — holds 101 records: the trigger handler pushes without trimming, so
the claimed 100-record cap does not hold at every reachable state. -/
theorem C2_trigger_exceeds_cap :
    ReachableRegistry (triggerTower 101) ∧ 100 < (triggerTower 101).length :=
  ⟨triggerTower_reachable 101, by decide⟩

/-- The scheduler's own insertion does maintain the cap: after any
`agent_loop` insertion the registry holds at most 100 records. -/
theorem schedulerInsertRun_length_le (runs : List AgentRunStatus)
    (r : AgentRunStatus) : (schedulerInsertRun runs r).length ≤ 100 := by
  unfold schedulerInsertRun
  by_cases h : (runs ++ [r]).length > 100
  · simp only [h, if_true, List.length_drop]
    omega
  · simp only [h, if_false]
    omega

-- ── C3 ──

theorem collectGo_isSome (pages : Nat → SanctionsPage α) :
    ∀ fuel offset, 10000 - offset < PAGE_LIMIT * fuel →
      (collectGo pages fuel offset).isSome := by
  intro fuel
  induction fuel with
  | zero => intro offset h; simp [PAGE_LIMIT] at h
  | succ fuel ih =>
      intro offset h
      unfold collectGo
      split
      · simp
      · split
        · simp
        · split
          · simp
          · rename_i h1 h2 h3
            have hrec := ih (offset + PAGE_LIMIT)
              (by simp only [PAGE_LIMIT] at *; omega)
            rcases Option.isSome_iff_exists.mp hrec with ⟨docs, hd⟩
            simp [hd]

theorem collectGo_length_le (pages : Nat → SanctionsPage α)
    (hpage : ∀ o, (pages o).results.length ≤ PAGE_LIMIT) :
    ∀ fuel offset docs, collectGo pages fuel offset = some docs →
      docs.length ≤ PAGE_LIMIT * fuel := by
  intro fuel
  induction fuel with
  | zero => intro offset docs h; simp [collectGo] at h
  | succ fuel ih =>
      intro offset docs h
      have hp := hpage offset
      unfold collectGo at h
      split at h
      · injection h with h
        subst h
        calc (pages offset).results.length ≤ PAGE_LIMIT := hp
          _ ≤ PAGE_LIMIT * (fuel + 1) := by simp only [PAGE_LIMIT]; omega
      · split at h
        · injection h with h
          subst h
          calc (pages offset).results.length ≤ PAGE_LIMIT := hp
            _ ≤ PAGE_LIMIT * (fuel + 1) := by simp only [PAGE_LIMIT]; omega
        · split at h
          · injection h with h
            subst h
            calc (pages offset).results.length ≤ PAGE_LIMIT := hp
              _ ≤ PAGE_LIMIT * (fuel + 1) := by simp only [PAGE_LIMIT]; omega
          · rw [Option.map_eq_some'] at h
            obtain ⟨docs2, hrec, hd⟩ := h
            subst hd
            have h2 := ih (offset + PAGE_LIMIT) docs2 hrec
            simp only [List.length_append, PAGE_LIMIT] at *
            omega

/-- The upstream used in the C3 counterexample: every page holds exactly 100
results and reports no total. -/
def c3pages : Nat → SanctionsPage Nat :=
  fun _ => { results := List.replicate 100 0, total := none }

theorem c3pages_len :
    ∀ fuel offset docs, offset + 100 * fuel = 10100 → 1 ≤ fuel →
      collectGo c3pages fuel offset = some docs → docs.length = 100 * fuel := by
  intro fuel
  induction fuel with
  | zero => intro offset docs _ h2 _; omega
  | succ fuel ih =>
      intro offset docs heq _ h
      unfold collectGo at h
      split at h
      · rename_i h1
        simp [c3pages, PAGE_LIMIT] at h1
      · split at h
        · rename_i h1 h2
          simp [c3pages] at h2
        · split at h
          · rename_i h1 h2 h3
            injection h with h
            subst h
            have hf : fuel = 0 := by
              simp only [PAGE_LIMIT] at h3
              omega
            subst hf
            simp [c3pages]
          · rename_i h1 h2 h3
            rw [Option.map_eq_some'] at h
            obtain ⟨docs2, hrec, hd⟩ := h
            subst hd
            have hg : offset + PAGE_LIMIT + 100 * fuel = 10100 ∧ 1 ≤ fuel := by
              simp only [PAGE_LIMIT] at h3 ⊢
              omega
            have h2 := ih (offset + PAGE_LIMIT) docs2 hg.1 hg.2 hrec
            simp only [List.length_append, h2, c3pages, List.length_replicate]
            ring

/-- C3 (counterexample). With every page full (exactly the 100-record limit)
and no reported total, `collect` fetches the pages at offsets 0, 100, …,
10 000 — 101 pages — and returns 10 100 documents, exceeding the claimed
10 000-document bound. -/
theorem C3_counterexample :
    (∃ docs, sanctions_collect c3pages = some docs ∧ docs.length = 10100) ∧
      ¬(10100 ≤ 10000) := by
  constructor
  · have hs := collectGo_isSome c3pages 101 0 (by simp [PAGE_LIMIT])
    obtain ⟨docs, hd⟩ := Option.isSome_iff_exists.mp hs
    refine ⟨docs, hd, ?_⟩
    have := c3pages_len 101 0 docs (by norm_num) (by norm_num) hd
    simpa using this
  · omega

/-- C3 (amended). The sanctions `collect` paginates with `offset` increasing
by the page limit (100), stopping when a page returns fewer results than the
limit, when the reported total is reached, or when the incremented offset
exceeds 10 000; consequently, for every sequence of upstream pages, `collect`
terminates, and when every upstream page holds at most the 100-record limit it
returns at most 10 100 documents (the safety stop fires after the page at
offset 10 000, i.e. after 101 pages). -/
theorem C3_sanctions_collect (pages : Nat → SanctionsPage α) :
    (sanctions_collect pages).isSome ∧
    ((∀ o, (pages o).results.length ≤ 100) → ∀ docs,
        sanctions_collect pages = some docs → docs.length ≤ 10100) := by
  constructor
  · exact collectGo_isSome pages 101 0 (by simp [PAGE_LIMIT])
  · intro hpage docs h
    have := collectGo_length_le pages (by simpa [PAGE_LIMIT] using hpage) 101 0 docs h
    simpa [PAGE_LIMIT] using this

/-- Witness for C3: an upstream whose first page is empty. -/
theorem C3_sanctions_collect_witness :
    (sanctions_collect (fun _ => ({ results := [], total := none } :
        SanctionsPage Nat))).isSome ∧
    ∀ docs, sanctions_collect (fun _ => ({ results := [], total := none } :
        SanctionsPage Nat)) = some docs → docs.length ≤ 10100 :=
  ⟨(C3_sanctions_collect _).1,
   fun docs h => (C3_sanctions_collect _).2 (fun _ => by simp) docs h⟩

-- ── C1 ──

/-- A single-entity extraction result for the C1 counterexample: source
`"A"`, source id `"X"`, name `"Acme Corp"`, with the given confidence. -/
def c1result (conf : ℚ) (id : Nat) : ExtractionResult :=
  { entities := [{ id := id, entity_type := .Organization, name := "Acme Corp",
                   aliases := [], properties := Json.emptyObj, source := "A",
                   source_id := some "X", confidence := conf,
                   first_seen := 0, last_seen := 0 }],
    relationships := [], raw_source := "X", extracted_at := 0 }

/-- C1 (counterexample). Storing the entity `(source "A", source_id "X")`
with confidence 9/10 and then re-storing the same `(source, source_id)` key
with confidence 1/5 leaves the stored confidence at 1/5: the same-source
`MERGE ... ON MATCH` branch overwrites confidence, so the stored confidence
is not `≥ max(previous, incoming) = 9/10`. -/
theorem C1_counterexample :
    ((store_extraction (store_extraction ⟨[], []⟩ (c1result (mkRat 9 10) 0))
        (c1result (mkRat 1 5) 1)).nodes.map (fun n => n.confidence))
      = [mkRat 1 5] ∧
    ¬(mkRat 1 5 ≥ mkRat 9 10) := by
  constructor
  · decide
  · decide

/-- C1 (amended). In the entity upsert of `store_extraction`: an existing node
updated through the cross-source merge path (same type, case-insensitively
equal name, different source) gets confidence `max(previous, incoming)` —
monotone non-decreasing; an existing node updated through the same-source
`(source, source_id)` MERGE path gets its confidence overwritten with the
incoming confidence, which may be lower. -/
theorem C1_store_confidence (nodes : List GraphNode) (e : Entity)
    (n : GraphNode) (hn : n ∈ nodes) :
    (crossSourceMatch e n = true →
        mergeOntoExisting e n ∈ upsertEntity nodes e ∧
        (mergeOntoExisting e n).confidence = max n.confidence e.confidence) ∧
    (∀ sid, nodes.any (crossSourceMatch e) = false → e.source_id = some sid →
        mergeKeyMatch e sid n = true →
        onMatchSet e n ∈ upsertEntity nodes e ∧
        (onMatchSet e n).confidence = e.confidence) := by
  constructor
  · intro hc
    have hany : nodes.any (crossSourceMatch e) = true :=
      List.any_eq_true.mpr ⟨n, hn, hc⟩
    constructor
    · unfold upsertEntity
      rw [if_pos hany]
      exact List.mem_map.mpr ⟨n, hn, by rw [if_pos hc]⟩
    · show (if e.confidence > n.confidence then e.confidence
            else n.confidence) = max n.confidence e.confidence
      rcases lt_or_le n.confidence e.confidence with h | h
      · rw [if_pos h, max_eq_right h.le]
      · rw [if_neg (not_lt.mpr h), max_eq_left h]
  · intro sid hanyf hsid hkey
    have hany2 : nodes.any (mergeKeyMatch e sid) = true :=
      List.any_eq_true.mpr ⟨n, hn, hkey⟩
    constructor
    · unfold upsertEntity
      rw [if_neg (by simp [hanyf]), hsid]
      simp only [hany2, if_pos]
      exact List.mem_map.mpr ⟨n, hn, by rw [if_pos hkey]⟩
    · rfl

/-- A stored node from source `"A"` used by the C1 witness. -/
def c1nA : GraphNode :=
  { label := .Organization, id := 0, name := "acme corp", aliases := [],
    properties := Json.emptyObj, source := "A", source_id := "X",
    confidence := mkRat 3 5, first_seen := 0, last_seen := 0,
    sources := some ["A"] }

/-- An incoming entity from source `"B"` whose name matches `c1nA`
case-insensitively (the cross-source merge path). -/
def c1eB : Entity :=
  { id := 1, entity_type := .Organization, name := "Acme Corp", aliases := [],
    properties := Json.emptyObj, source := "B", source_id := some "Q",
    confidence := mkRat 9 10, first_seen := 1, last_seen := 1 }

/-- An incoming entity from source `"A"` with the same `(source, source_id)`
key as `c1nA` but a different name (the same-source MERGE path). -/
def c1eA : Entity :=
  { id := 2, entity_type := .Organization, name := "Other Corp", aliases := [],
    properties := Json.emptyObj, source := "A", source_id := some "X",
    confidence := mkRat 1 5, first_seen := 2, last_seen := 2 }

/-- Witness for C1 (amended): both paths exercised on concrete data. -/
theorem C1_store_confidence_witness :
    (mergeOntoExisting c1eB c1nA ∈ upsertEntity [c1nA] c1eB ∧
      (mergeOntoExisting c1eB c1nA).confidence =
        max c1nA.confidence c1eB.confidence) ∧
    (onMatchSet c1eA c1nA ∈ upsertEntity [c1nA] c1eA ∧
      (onMatchSet c1eA c1nA).confidence = c1eA.confidence) :=
  ⟨(C1_store_confidence [c1nA] c1eB c1nA (List.mem_singleton.mpr rfl)).1
      (by decide),
   (C1_store_confidence [c1nA] c1eA c1nA (List.mem_singleton.mpr rfl)).2
      "X" (by decide) rfl (by decide)⟩

-- ── name-to-id index lemmas (C5/C6/C10 helpers) ──

/-- The lowercased keys a single entity contributes to the name-to-id index:
its canonical name and every alias. -/
def entityKeys (le : LlmEntity) : List String :=
  strLower le.name :: le.aliases.map strLower

/-- Position of the last entity in the list whose keys contain `k`. -/
def lastContainIdx : List LlmEntity → String → Option Nat
  | [], _ => none
  | le :: rest, k =>
      match lastContainIdx rest k with
      | some i => some (i + 1)
      | none => if k ∈ entityKeys le then some 0 else none

theorem lastContainIdx_lt :
    ∀ (les : List LlmEntity) (k : String) (i : Nat),
      lastContainIdx les k = some i → i < les.length := by
  intro les
  induction les with
  | nil => intro k i h; simp [lastContainIdx] at h
  | cons le rest ih =>
      intro k i h
      unfold lastContainIdx at h
      cases hL : lastContainIdx rest k with
      | some j =>
          rw [hL] at h
          injection h with h
          subst h
          have := ih k j hL
          simp only [List.length_cons]
          omega
      | none =>
          rw [hL] at h
          by_cases hk : k ∈ entityKeys le
          · rw [if_pos hk] at h
            injection h with h
            subst h
            simp
          · rw [if_neg hk] at h
            cases h

theorem idxLookup_cons (k' : String) (v : Nat) (m : List (String × Nat))
    (k : String) :
    idxLookup ((k', v) :: m) k = if k' = k then some v else idxLookup m k := by
  by_cases h : k' = k
  · subst h
    simp [idxLookup, List.find?]
  · have hb : (k' == k) = false := by simp [h]
    simp [idxLookup, List.find?, hb, h]

theorem foldl_insert_lookup (v : Nat) (k : String) :
    ∀ (al : List String) (m0 : List (String × Nat)),
      idxLookup (al.foldl (fun m a => idxInsert m (strLower a) v) m0) k =
        if k ∈ al.map strLower then some v else idxLookup m0 k := by
  intro al
  induction al with
  | nil => intro m0; simp
  | cons a rest ih =>
      intro m0
      simp only [List.foldl_cons, List.map_cons, List.mem_cons]
      rw [ih]
      by_cases hr : k ∈ rest.map strLower
      · simp [hr]
      · by_cases ha : strLower a = k
        · simp [hr, ha, idxInsert, idxLookup_cons]
        · have ha2 : ¬ k = strLower a := fun hc => ha hc.symm
          simp [hr, ha, ha2, idxInsert, idxLookup_cons]

theorem buildEntities_snd_cons (src : String) (now : Nat) (le : LlmEntity)
    (rest : List LlmEntity) (nextId : Nat) (idx : List (String × Nat)) :
    (buildEntities src now (le :: rest) nextId idx).2 =
      (buildEntities src now rest (nextId + 1)
        (le.aliases.foldl (fun m a => idxInsert m (strLower a) nextId)
          (idxInsert idx (strLower le.name) nextId))).2 := by
  rcases h : buildEntities src now rest (nextId + 1)
    (le.aliases.foldl (fun m a => idxInsert m (strLower a) nextId)
      (idxInsert idx (strLower le.name) nextId)) with ⟨es, idxF⟩
  simp [buildEntities, h]

theorem buildEntities_fst_cons (src : String) (now : Nat) (le : LlmEntity)
    (rest : List LlmEntity) (nextId : Nat) (idx : List (String × Nat)) :
    (buildEntities src now (le :: rest) nextId idx).1 =
      { id := nextId
        entity_type := parse_entity_type le.entity_type
        name := le.name
        aliases := le.aliases
        properties := if le.properties.is_null then Json.emptyObj
                      else le.properties
        source := src
        source_id := none
        confidence := le.confidence
        first_seen := now
        last_seen := now } ::
      (buildEntities src now rest (nextId + 1)
        (le.aliases.foldl (fun m a => idxInsert m (strLower a) nextId)
          (idxInsert idx (strLower le.name) nextId))).1 := by
  rcases h : buildEntities src now rest (nextId + 1)
    (le.aliases.foldl (fun m a => idxInsert m (strLower a) nextId)
      (idxInsert idx (strLower le.name) nextId)) with ⟨es, idxF⟩
  simp [buildEntities, h]

/-- The index built by `buildEntities` resolves a key to the freshly minted id
of the last listed entity whose name or aliases (lowercased) contain the key;
keys contained in no entity fall through to the initial index. -/
theorem buildEntities_idxLookup (src : String) (now : Nat) (k : String) :
    ∀ (les : List LlmEntity) (nextId : Nat) (idx : List (String × Nat)),
      idxLookup (buildEntities src now les nextId idx).2 k =
        match lastContainIdx les k with
        | some i => some (nextId + i)
        | none => idxLookup idx k := by
  intro les
  induction les with
  | nil => intro nextId idx; rfl
  | cons le rest ih =>
      intro nextId idx
      rw [buildEntities_snd_cons, ih]
      cases hL : lastContainIdx rest k with
      | some i =>
          simp only [lastContainIdx, hL, Option.some_inj]
          omega
      | none =>
          rw [foldl_insert_lookup]
          simp only [lastContainIdx, hL]
          by_cases hk : k ∈ entityKeys le
          · rcases List.mem_cons.mp hk with hname | halias
            · by_cases hal : k ∈ le.aliases.map strLower
              · simp [hal, hk]
              · simp [hal, idxInsert, idxLookup_cons, hname.symm, hk]
            · simp [halias, hk]
          · have hal : ¬ k ∈ le.aliases.map strLower :=
              fun hc => hk (List.mem_cons.mpr (Or.inr hc))
            have hnm : ¬ strLower le.name = k :=
              fun hc => hk (List.mem_cons.mpr (Or.inl hc.symm))
            have hnm2 : ¬ k = strLower le.name := fun hc => hnm hc.symm
            simp [hal, idxInsert, idxLookup_cons, hnm, hnm2, hk]

/-- Every id between `nextId` and `nextId + length` is the id of some built
entity (ids are minted positionally). -/
theorem buildEntities_mem_id (src : String) (now : Nat) :
    ∀ (les : List LlmEntity) (nextId : Nat) (idx : List (String × Nat))
      (v : Nat), nextId ≤ v → v < nextId + les.length →
      ∃ e ∈ (buildEntities src now les nextId idx).1, e.id = v := by
  intro les
  induction les with
  | nil => intro nextId idx v h1 h2; simp at h2; omega
  | cons le rest ih =>
      intro nextId idx v h1 h2
      rw [buildEntities_fst_cons]
      by_cases hv : v = nextId
      · exact ⟨_, List.mem_cons_self _ _, hv.symm⟩
      · have h3 : nextId + 1 ≤ v := by omega
        have h4 : v < nextId + 1 + rest.length := by
          simp only [List.length_cons] at h2
          omega
        obtain ⟨e, he, hid⟩ := ih (nextId + 1) _ v h3 h4
        exact ⟨e, List.mem_cons_of_mem _ he, hid⟩

/-- Every relationship produced by `buildRelationships` stems from an input
relationship whose source and target both resolved through the index, and it
carries that input's confidence and the resolved endpoint ids. -/
theorem buildRelationships_mem (src : String) (now : Nat)
    (idx : List (String × Nat)) :
    ∀ (lrs : List LlmRelationship) (nextId : Nat) (r : Relationship),
      r ∈ buildRelationships src now idx lrs nextId →
      ∃ lr ∈ lrs, ∃ s t,
        idxLookup idx (strLower lr.source) = some s ∧
        idxLookup idx (strLower lr.target) = some t ∧
        r.source_entity_id = s ∧ r.target_entity_id = t ∧
        r.confidence = lr.confidence := by
  intro lrs
  induction lrs with
  | nil => intro nextId r h; simp [buildRelationships] at h
  | cons lr rest ih =>
      intro nextId r h
      unfold buildRelationships at h
      cases hs : idxLookup idx (strLower lr.source) with
      | none =>
          rw [hs] at h
          obtain ⟨lr2, hm, rest2⟩ := ih _ r h
          exact ⟨lr2, List.mem_cons_of_mem _ hm, rest2⟩
      | some s =>
          rw [hs] at h
          cases ht : idxLookup idx (strLower lr.target) with
          | none =>
              rw [ht] at h
              obtain ⟨lr2, hm, rest2⟩ := ih _ r h
              exact ⟨lr2, List.mem_cons_of_mem _ hm, rest2⟩
          | some t =>
              rw [ht] at h
              rcases List.mem_cons.mp h with rfl | h
              · exact ⟨lr, List.mem_cons_self _ _, s, t, hs, ht, rfl, rfl, rfl⟩
              · obtain ⟨lr2, hm, rest2⟩ := ih _ r h
                exact ⟨lr2, List.mem_cons_of_mem _ hm, rest2⟩

/-- Model of `buildRelationships` keeps exactly the input relationships whose two
endpoints resolve (the rest are skipped, never fabricated). -/
theorem buildRelationships_length (src : String) (now : Nat)
    (idx : List (String × Nat)) :
    ∀ (lrs : List LlmRelationship) (nextId : Nat),
      (buildRelationships src now idx lrs nextId).length =
        (lrs.filter (fun lr =>
          (idxLookup idx (strLower lr.source)).isSome &&
          (idxLookup idx (strLower lr.target)).isSome)).length := by
  intro lrs
  induction lrs with
  | nil => intro nextId; rfl
  | cons lr rest ih =>
      intro nextId
      unfold buildRelationships
      cases hs : idxLookup idx (strLower lr.source) with
      | none => simp [hs, ih, List.filter]
      | some s =>
          cases ht : idxLookup idx (strLower lr.target) with
          | none => simp [hs, ht, ih, List.filter]
          | some t => simp [hs, ht, ih, List.filter]

/-- Model of `buildFromOutput` unfolded through the pair destructuring. -/
theorem buildFromOutput_eq (out : LlmExtractionOutput) (src : String)
    (now : Nat) :
    buildFromOutput out src now =
      ((buildEntities src now out.entities 0 []).1,
       buildRelationships src now (buildEntities src now out.entities 0 []).2
         out.relationships (buildEntities src now out.entities 0 []).1.length) := by
  rcases h : buildEntities src now out.entities 0 [] with ⟨es, idxF⟩
  simp [buildFromOutput, h]

-- ── C5 ──

theorem buildEntities_confidences (src : String) (now : Nat) :
    ∀ (les : List LlmEntity) (nextId : Nat) (idx : List (String × Nat)),
      (buildEntities src now les nextId idx).1.map (fun e => e.confidence) =
        les.map (fun le => le.confidence) := by
  intro les
  induction les with
  | nil => intro nextId idx; rfl
  | cons le rest ih =>
      intro nextId idx
      rw [buildEntities_fst_cons]
      simp [ih]

/-- C5 (amended). The extraction parser copies every confidence value through
unchanged: each produced entity's confidence equals the corresponding parsed
confidence, and each produced relationship's confidence equals the confidence
of the input relationship it stems from — no clamping into [0,1] is applied
on this path (clamping exists only in the reasoning interpretation parser,
`rustClamp01`). -/
theorem C5_confidence_passthrough (out : LlmExtractionOutput) (src : String)
    (now : Nat) :
    ((buildFromOutput out src now).1.map (fun e => e.confidence)) =
      out.entities.map (fun le => le.confidence) ∧
    (∀ r ∈ (buildFromOutput out src now).2,
      ∃ lr ∈ out.relationships, r.confidence = lr.confidence) := by
  rw [buildFromOutput_eq]
  constructor
  · exact buildEntities_confidences src now out.entities 0 []
  · intro r hr
    obtain ⟨lr, hm, _, _, _, _, _, _, hconf⟩ :=
      buildRelationships_mem src now _ out.relationships _ r hr
    exact ⟨lr, hm, hconf⟩

/-- The extraction output used by the C5 counterexample and witnesses: one
entity with out-of-range confidence 3/2, one relationship that resolves. -/
def c5out : LlmExtractionOutput :=
  { entities := [{ name := "Acme", entity_type := "organization",
                   aliases := [], properties := .null,
                   confidence := mkRat 3 2 }],
    relationships := [{ source := "Acme", target := "Acme",
                        relation_type := "related_to", properties := .null,
                        confidence := mkRat 5 2 }] }

/-- The JSON text whose `serde_json` decoding is `c5out`. -/
def c5raw : String :=
  "\x7b\"entities\": [\x7b\"name\": \"Acme\", \"type\": \"organization\", \"confidence\": 1.5\x7d], \"relationships\": [\x7b\"source\": \"Acme\", \"target\": \"Acme\", \"type\": \"related_to\", \"confidence\": 2.5\x7d]\x7d"

/-- Stub for `serde_json::from_str::<LlmExtractionOutput>`: decodes exactly
the JSON text `c5raw` to `c5out`. -/
def c5decode : String → Except String LlmExtractionOutput := fun s =>
  if s = c5raw then .ok c5out else .error "invalid JSON"

/-- C5 (counterexample). An LLM response carrying entity confidence 1.5 and
relationship confidence 2.5 yields an `ExtractionResult` whose entity has
confidence 3/2 and whose relationship has confidence 5/2 — not clamped into
[0,1]. -/
theorem C5_counterexample :
    (parse_llm_response c5decode c5raw "test" 0).map
        (fun p => (p.1.map (fun e => e.confidence),
                   p.2.map (fun r => r.confidence)))
      = .ok ([mkRat 3 2], [mkRat 5 2]) ∧
    ¬(mkRat 3 2 ≤ 1) ∧ ¬(mkRat 5 2 ≤ 1) := by
  refine ⟨?_, by decide, by decide⟩
  rfl

/-- Witness for C5 (amended): applied to `c5out`. -/
theorem C5_confidence_passthrough_witness :
    ((buildFromOutput c5out "test" 0).1.map (fun e => e.confidence)) =
      c5out.entities.map (fun le => le.confidence) ∧
    (∃ r, r ∈ (buildFromOutput c5out "test" 0).2 ∧
      ∃ lr ∈ c5out.relationships, r.confidence = lr.confidence) := by
  refine ⟨(C5_confidence_passthrough c5out "test" 0).1, ?_⟩
  obtain ⟨r, hr⟩ : ∃ r, (buildFromOutput c5out "test" 0).2 = [r] := ⟨_, rfl⟩
  refine ⟨r, by rw [hr]; exact List.mem_singleton.mpr rfl, ?_⟩
  exact (C5_confidence_passthrough c5out "test" 0).2 r
    (by rw [hr]; exact List.mem_singleton.mpr rfl)

-- ── C6 ──

/-- C6. In every parsed extraction output, each produced relationship's
`source_entity_id` and `target_entity_id` are ids of entities in the same
result, and the number of produced relationships equals the number of input
relationships whose source and target names both resolve in the
name-to-id index — unresolvable relationships are dropped, never fabricated. -/
theorem C6_relationship_endpoints (out : LlmExtractionOutput) (src : String)
    (now : Nat) :
    (∀ r ∈ (buildFromOutput out src now).2,
      (∃ e ∈ (buildFromOutput out src now).1, e.id = r.source_entity_id) ∧
      (∃ e ∈ (buildFromOutput out src now).1, e.id = r.target_entity_id)) ∧
    ((buildFromOutput out src now).2.length =
      (out.relationships.filter (fun lr =>
        (idxLookup (buildEntities src now out.entities 0 []).2
          (strLower lr.source)).isSome &&
        (idxLookup (buildEntities src now out.entities 0 []).2
          (strLower lr.target)).isSome)).length) := by
  rw [buildFromOutput_eq]
  constructor
  · intro r hr
    obtain ⟨lr, hm, s, t, hs, ht, hrs, hrt, _⟩ :=
      buildRelationships_mem src now _ out.relationships _ r hr
    have hsrc : ∃ e ∈ (buildEntities src now out.entities 0 []).1, e.id = s := by
      have hL := buildEntities_idxLookup src now (strLower lr.source)
        out.entities 0 []
      rw [hs] at hL
      cases hC : lastContainIdx out.entities (strLower lr.source) with
      | none => rw [hC] at hL; cases hL
      | some i =>
          rw [hC] at hL
          injection hL with hL
          have hil := lastContainIdx_lt out.entities (strLower lr.source) i hC
          exact hL ▸ buildEntities_mem_id src now out.entities 0 [] (0 + i)
            (by omega) (by omega)
    have htgt : ∃ e ∈ (buildEntities src now out.entities 0 []).1, e.id = t := by
      have hL := buildEntities_idxLookup src now (strLower lr.target)
        out.entities 0 []
      rw [ht] at hL
      cases hC : lastContainIdx out.entities (strLower lr.target) with
      | none => rw [hC] at hL; cases hL
      | some i =>
          rw [hC] at hL
          injection hL with hL
          have hil := lastContainIdx_lt out.entities (strLower lr.target) i hC
          exact hL ▸ buildEntities_mem_id src now out.entities 0 [] (0 + i)
            (by omega) (by omega)
    exact ⟨hrs ▸ hsrc, hrt ▸ htgt⟩
  · exact buildRelationships_length src now _ out.relationships _

/-- The extraction output of the C6 witness: the canned two-entity response
(`"Acme Corp"` organization, `"John Smith"` person, one `director_of`
relationship) plus one relationship with a missing endpoint. -/
def c6out : LlmExtractionOutput :=
  { entities := [{ name := "Acme Corp", entity_type := "organization",
                   aliases := ["ACME"], properties := .null,
                   confidence := mkRat 19 20 },
                 { name := "John Smith", entity_type := "person",
                   aliases := [], properties := .null,
                   confidence := mkRat 9 10 }],
    relationships := [{ source := "John Smith", target := "Acme Corp",
                        relation_type := "director_of", properties := .null,
                        confidence := mkRat 17 20 },
                      { source := "John Smith", target := "NonExistent",
                        relation_type := "related_to", properties := .null,
                        confidence := mkRat 1 2 }] }

/-- Witness for C6: applied to `c6out` — the resolvable relationship's
endpoints are entity ids of the result, and exactly one of the two input
relationships survives. -/
theorem C6_relationship_endpoints_witness :
    (∃ r, r ∈ (buildFromOutput c6out "test" 0).2 ∧
      (∃ e ∈ (buildFromOutput c6out "test" 0).1, e.id = r.source_entity_id) ∧
      (∃ e ∈ (buildFromOutput c6out "test" 0).1, e.id = r.target_entity_id)) ∧
    (buildFromOutput c6out "test" 0).2.length = 1 := by
  constructor
  · obtain ⟨r, hr⟩ : ∃ r, (buildFromOutput c6out "test" 0).2 = [r] := ⟨_, rfl⟩
    refine ⟨r, by rw [hr]; exact List.mem_singleton.mpr rfl, ?_⟩
    exact (C6_relationship_endpoints c6out "test" 0).1 r
      (by rw [hr]; exact List.mem_singleton.mpr rfl)
  · rw [(C6_relationship_endpoints c6out "test" 0).2]
    decide

-- ── C10 ──

theorem lastContainIdx_append (k : String) :
    ∀ (l r : List LlmEntity),
      lastContainIdx (l ++ r) k =
        match lastContainIdx r k with
        | some i => some (l.length + i)
        | none => lastContainIdx l k := by
  intro l r
  induction l with
  | nil =>
      cases h : lastContainIdx r k with
      | some i => simp [h]
      | none => simp [h, lastContainIdx]
  | cons le rest ih =>
      have hc : (le :: rest) ++ r = le :: (rest ++ r) := rfl
      rw [hc]
      show (match lastContainIdx (rest ++ r) k with
            | some i => some (i + 1)
            | none => if k ∈ entityKeys le then some 0 else none) = _
      rw [ih]
      cases h : lastContainIdx r k with
      | some i =>
          simp only [List.length_cons, Option.some_inj]
          omega
      | none => rfl

theorem lastContainIdx_none (k : String) :
    ∀ (l : List LlmEntity), (∀ le ∈ l, k ∉ entityKeys le) →
      lastContainIdx l k = none := by
  intro l
  induction l with
  | nil => intro _; rfl
  | cons le rest ih =>
      intro h
      have hr := ih (fun le2 hm => h le2 (List.mem_cons_of_mem _ hm))
      have hle := h le (List.mem_cons_self _ _)
      simp [lastContainIdx, hr, hle]

/-- C10. When two entities in one parsed LLM response share a
(case-insensitive) name or alias key `k` — and no later entity carries it —
the name-to-id index binds `k` to the later-listed entity's freshly minted id
(last insertion wins), which differs from the earlier entity's id, and every
produced relationship whose source resolves through `k` is attached to the
later entity's id. -/
theorem C10_last_insertion_wins (src : String) (now : Nat)
    (l1 l2 l3 : List LlmEntity) (le1 le2 : LlmEntity) (k : String)
    (h1 : k ∈ entityKeys le1) (h2 : k ∈ entityKeys le2)
    (h3 : ∀ le ∈ l3, k ∉ entityKeys le) :
    idxLookup (buildEntities src now (l1 ++ le1 :: l2 ++ le2 :: l3) 0 []).2 k
      = some (l1.length + (l2.length + 1)) ∧
    l1.length + (l2.length + 1) ≠ l1.length ∧
    (∀ (lr : LlmRelationship) (nextId : Nat) (r : Relationship) (tgt : Nat),
      strLower lr.source = k →
      idxLookup (buildEntities src now (l1 ++ le1 :: l2 ++ le2 :: l3) 0 []).2
        (strLower lr.target) = some tgt →
      r ∈ buildRelationships src now
        (buildEntities src now (l1 ++ le1 :: l2 ++ le2 :: l3) 0 []).2
        [lr] nextId →
      r.source_entity_id = l1.length + (l2.length + 1)) := by
  have e3 : lastContainIdx l3 k = none := lastContainIdx_none k l3 h3
  have e2 : lastContainIdx (le2 :: l3) k = some 0 := by
    simp [lastContainIdx, e3, h2]
  have eA : lastContainIdx ((le1 :: l2) ++ (le2 :: l3)) k =
      some (l2.length + 1) := by
    rw [lastContainIdx_append k (le1 :: l2) (le2 :: l3), e2]
    simp
  have hlast : lastContainIdx (l1 ++ le1 :: l2 ++ le2 :: l3) k =
      some (l1.length + (l2.length + 1)) := by
    have happ := lastContainIdx_append k l1 ((le1 :: l2) ++ (le2 :: l3))
    rw [eA] at happ
    simpa using happ
  have hbind :
      idxLookup (buildEntities src now (l1 ++ le1 :: l2 ++ le2 :: l3) 0 []).2 k
        = some (l1.length + (l2.length + 1)) := by
    rw [buildEntities_idxLookup, hlast]
    simp
  refine ⟨hbind, by omega, ?_⟩
  intro lr nextId r tgt hsrc htgt hr
  unfold buildRelationships at hr
  rw [hsrc, hbind, htgt] at hr
  rcases List.mem_cons.mp hr with rfl | hr2
  · rfl
  · simp [buildRelationships] at hr2

/-- The two entities of the C10 witness: they share the case-insensitive
key `"acme"`; the second also carries the alias key `"acme corp"`. -/
def c10le1 : LlmEntity :=
  { name := "ACME", entity_type := "organization", aliases := [],
    properties := .null, confidence := 1 }

/-- Second entity of the C10 witness (later-listed, same key). -/
def c10le2 : LlmEntity :=
  { name := "Acme", entity_type := "company", aliases := ["ACME Corp"],
    properties := .null, confidence := mkRat 9 10 }

/-- The relationship of the C10 witness, referencing the shared name. -/
def c10lr : LlmRelationship :=
  { source := "ACME", target := "ACME Corp", relation_type := "related_to",
    properties := .null, confidence := 1 }

/-- Witness for C10: with `[c10le1, c10le2]`, the key `"acme"` resolves to
id 1 (the later entity) and the built relationship is attached to id 1. -/
theorem C10_last_insertion_wins_witness :
    idxLookup (buildEntities "test" 0 [c10le1, c10le2] 0 []).2 "acme"
      = some 1 ∧
    (∃ r, r ∈ buildRelationships "test" 0
        (buildEntities "test" 0 [c10le1, c10le2] 0 []).2 [c10lr] 2 ∧
      r.source_entity_id = 1) := by
  have h := C10_last_insertion_wins "test" 0 [] [] [] c10le1 c10le2 "acme"
    (by decide) (by decide) (by simp)
  constructor
  · have h1 := h.1
    simpa using h1
  · obtain ⟨r, hr⟩ : ∃ r, buildRelationships "test" 0
        (buildEntities "test" 0 [c10le1, c10le2] 0 []).2 [c10lr] 2 = [r] :=
      ⟨_, rfl⟩
    refine ⟨r, by rw [hr]; exact List.mem_singleton.mpr rfl, ?_⟩
    have hr2 : buildRelationships "test" 0
        (buildEntities "test" 0 ([] ++ c10le1 :: [] ++ c10le2 :: []) 0 []).2
        [c10lr] 2 = [r] := hr
    have h3 := h.2.2 c10lr 2 r 1 (by decide) (by decide)
      (by rw [hr2]; exact List.mem_singleton.mpr rfl)
    simpa using h3

-- ── C4 ──

/-- The substring "from the first `{` to the last `}`", written the way the
specification words it: drop everything before the first opening brace, and
(via reversal) everything after the last closing brace. -/
def specBraceSub (s : String) : String :=
  ⟨((s.data.dropWhile (· ≠ lbrace)).reverse.dropWhile (· ≠ rbrace)).reverse⟩

theorem firstIdxOf_lt :
    ∀ (cs : List Char) (c : Char) (i : Nat),
      firstIdxOf cs c = some i → i < cs.length := by
  intro cs
  induction cs with
  | nil => intro c i h; simp [firstIdxOf] at h
  | cons a t ih =>
      intro c i h
      unfold firstIdxOf at h
      by_cases hac : a = c
      · rw [if_pos hac] at h
        injection h with h
        subst h
        simp
      · rw [if_neg hac] at h
        cases hf : firstIdxOf t c with
        | none => rw [hf] at h; cases h
        | some j =>
            rw [hf] at h
            injection h with h
            subst h
            have := ih c j hf
            simp only [List.length_cons]
            omega

theorem dropWhile_ne (c : Char) :
    ∀ cs : List Char,
      cs.dropWhile (· ≠ c) = cs.drop ((firstIdxOf cs c).getD cs.length) := by
  intro cs
  induction cs with
  | nil => rfl
  | cons a t ih =>
      rw [List.dropWhile_cons]
      unfold firstIdxOf
      by_cases hac : a = c
      · rw [if_neg (by simp [hac]), if_pos hac]
        simp
      · rw [if_pos (by simp [hac]), if_neg hac, ih]
        cases hf : firstIdxOf t c with
        | some j => simp [hf]
        | none => simp [hf]

theorem firstIdxOf_take :
    ∀ (l : List Char) (c : Char) (n i : Nat),
      firstIdxOf l c = some i → i < n →
      firstIdxOf (l.take n) c = some i := by
  intro l
  induction l with
  | nil => intro c n i h; simp [firstIdxOf] at h
  | cons a t ih =>
      intro c n i h hn
      cases n with
      | zero => omega
      | succ n =>
          rw [List.take_succ_cons]
          unfold firstIdxOf at h ⊢
          by_cases hac : a = c
          · rwa [if_pos hac] at h ⊢
          · rw [if_neg hac] at h ⊢
            cases hf : firstIdxOf t c with
            | none => rw [hf] at h; cases h
            | some j =>
                rw [hf] at h
                simp only [Option.map_some', Option.some_inj] at h
                rw [ih c n j hf (by omega)]
                simp [h]

/-- C4 (amended). The brace extraction applies only when the trimmed response
starts with a markdown code fence: in that case the parser passes exactly the
substring from the first `{` to the last `}` (as the spec words it) to JSON
parsing, so parsing succeeds whenever that substring decodes as a valid
extraction object. -/
theorem C4_fenced_extraction (raw src : String) (now : Nat) (i k : Nat)
    (hfence : rsStartsWith (rsTrim raw) "```" = true)
    (hi : firstIdxOf (rsTrim raw).data lbrace = some i)
    (hk : lastIdxOf (rsTrim raw).data rbrace = some k)
    (hik : i ≤ k) :
    cleanResponse raw = specBraceSub (rsTrim raw) ∧
    (∀ (decode : String → Except String LlmExtractionOutput)
       (out : LlmExtractionOutput),
      decode (specBraceSub (rsTrim raw)) = .ok out →
      parse_llm_response decode raw src now = .ok (buildFromOutput out src now)) := by
  have hclean : cleanResponse raw = specBraceSub (rsTrim raw) := by
    set cs := (rsTrim raw).data with hcs
    obtain ⟨m, hm, hkm⟩ : ∃ m, firstIdxOf cs.reverse rbrace = some m ∧
        k = cs.length - 1 - m := by
      unfold lastIdxOf at hk
      cases hm : firstIdxOf cs.reverse rbrace with
      | none => rw [hm] at hk; cases hk
      | some m =>
          rw [hm] at hk
          injection hk with hk
          exact ⟨m, rfl, hk.symm⟩
    have hmlt : m < cs.length := by
      have := firstIdxOf_lt cs.reverse rbrace m hm
      simpa using this
    have hilt : i < cs.length := firstIdxOf_lt cs lbrace i hi
    have hmk : m = cs.length - 1 - k := by omega
    have step1 : cs.dropWhile (· ≠ lbrace) = cs.drop i := by
      rw [dropWhile_ne lbrace cs, hi]
      rfl
    have step3 : firstIdxOf (cs.reverse.take (cs.length - i)) rbrace = some m :=
      firstIdxOf_take cs.reverse rbrace (cs.length - i) m hm (by omega)
    have step4 : (cs.reverse.take (cs.length - i)).dropWhile (· ≠ rbrace) =
        (cs.reverse.take (cs.length - i)).drop m := by
      rw [dropWhile_ne rbrace _, step3]
      rfl
    have hlen1 : (cs.take (k + 1)).length = k + 1 := by
      rw [List.length_take]
      omega
    have hLrev : ((cs.take (k + 1)).drop i).reverse =
        (cs.reverse.take (cs.length - i)).drop m := by
      have e1 : cs.length - (k + 1) = m := by omega
      have e2 : k + 1 - i = (cs.length - i) - m := by omega
      calc ((cs.take (k + 1)).drop i).reverse
          = (cs.take (k + 1)).reverse.take ((cs.take (k + 1)).length - i) :=
            List.reverse_drop
        _ = (cs.reverse.drop (cs.length - (k + 1))).take (k + 1 - i) := by
            rw [List.reverse_take, hlen1]
        _ = (cs.reverse.drop m).take ((cs.length - i) - m) := by rw [e1, e2]
        _ = (cs.reverse.take (cs.length - i)).drop m :=
            (List.drop_take (cs.length - i) m cs.reverse).symm
    have hmain : (cs.take (k + 1)).drop i =
        ((cs.dropWhile (· ≠ lbrace)).reverse.dropWhile (· ≠ rbrace)).reverse := by
      rw [step1, List.reverse_drop, step4, ← hLrev, List.reverse_reverse]
    unfold cleanResponse specBraceSub
    rw [hfence]
    simp only [if_true, hk, hi, Option.getD_some, ← hcs]
    exact congrArg String.mk hmain
  refine ⟨hclean, ?_⟩
  intro decode out hd
  unfold parse_llm_response
  rw [hclean, hd]

/-- The non-fenced response of the C4 counterexample: a valid JSON object
surrounded by extraneous text. -/
def c4raw : String :=
  "Here is the JSON: \x7b\"entities\": [], \"relationships\": []\x7d"

/-- The JSON object enclosed in `c4raw`. -/
def c4inner : String := "\x7b\"entities\": [], \"relationships\": []\x7d"

/-- Stub for `serde_json::from_str::<LlmExtractionOutput>`: strict JSON
decoding accepting exactly the enclosed object `c4inner`. -/
def c4decode : String → Except String LlmExtractionOutput := fun s =>
  if s = c4inner then .ok { entities := [], relationships := [] }
  else .error "expected value"

/-- C4 (counterexample). For a response that does not start with a code fence,
the parser performs no brace extraction: the cleaned text is the whole
response (not the enclosed JSON object), and parsing fails even though the
response consists of a valid JSON object surrounded by extraneous text. -/
theorem C4_counterexample :
    cleanResponse c4raw = c4raw ∧
    c4raw ≠ c4inner ∧
    parse_llm_response c4decode c4raw "test" 0 =
      .error "Failed to parse LLM JSON output: expected value" := by
  refine ⟨rfl, by decide, rfl⟩

/-- The fenced response used by the C4 witness. -/
def c4fenced : String :=
  "```json\n\x7b\"entities\": [], \"relationships\": []\x7d\n```"

/-- Witness for C4 (amended): on `c4fenced` the parser extracts exactly the
enclosed object and decoding succeeds. -/
theorem C4_fenced_extraction_witness :
    cleanResponse c4fenced = specBraceSub (rsTrim c4fenced) ∧
    parse_llm_response c4decode c4fenced "test" 0 =
      .ok (buildFromOutput { entities := [], relationships := [] } "test" 0) := by
  have h := C4_fenced_extraction c4fenced "test" 0 8 44
    (by decide) (by decide) (by decide) (by decide)
  exact ⟨h.1, h.2 c4decode { entities := [], relationships := [] } rfl⟩

end Argus
